import Mathlib

/-!
Verification of the Logical Core (reasoning engine) of the Brain repository.

The repository documents the Logical Core as the `ReasoningEngine` class of
`src/logical_core/reasoning_engine.py` (see `project.md` and the demo
notebooks, which import and call it), but that module itself is not present
in the source tree; only its callers are. Every definition below that embeds
the engine is therefore modelled from the specification's own words — each
such definition carries a doc comment starting `Modelled from the spec:` —
and the claims are settled against that model.

Machine integers do not occur; the engine works on symbolic terms, strings
and unbounded counters, so `Nat` is the faithful carrier. Search and
unification are given explicit fuel, which embeds the specification's
caller-configurable step/depth budget (§4.3): every function is total, and
exhausting the budget is reported by a flag distinct from ordinary failure.
-/

namespace Brain

/-- Modelled from the spec: the Term data model of the missing
`reasoning_engine` module — a closed sum with variants `Atom(name)`,
`Variable(id)` and `Compound(functor, ordered sequence of Term)`. -/
inductive Term where
  | atom (name : String)
  | var (id : Nat)
  | compound (fn : String) (args : List Term)
deriving Repr

/-- Modelled from the spec: a Substitution is a finite mapping from
Variable-id to Term, built incrementally during unification; represented
as an association list, newest binding first. A variable bound once is
never rebound: `unify` only prepends bindings for unbound variables. -/
abbrev Subst := List (Nat × Term)

/-- Modelled from the spec: querying a variable returns its bound Term or
"unbound" (`none`). -/
def lookupVar (s : Subst) (v : Nat) : Option Term :=
  s.lookup v

/-- Dereferencing work loop: follow variable bindings until an unbound
variable or a non-variable term is reached, bounded by fuel. -/
def walkAux : Nat → Subst → Term → Term
  | 0, _, t => t
  | fuel + 1, s, Term.var v =>
    match lookupVar s v with
    | some t => walkAux fuel s t
    | none => Term.var v
  | _ + 1, _, t => t

/-- Modelled from the spec: `unify` "dereferences both terms through
`subst` before comparing". A chain of distinct variable bindings is at
most as long as the substitution, so `s.length + 1` steps always settle
it. -/
def walk (s : Subst) (t : Term) : Term :=
  walkAux (s.length + 1) s t

/-- Modelled from the spec: `unify(a, b, subst) -> Substitution | Failure`
of the missing `reasoning_engine` module. Dereferences both terms, then:
two atoms unify iff equal by name; a variable unifies with anything by
extending the substitution (a bound variable having been resolved by the
dereference); two compounds unify iff same functor and arity, and all
corresponding arguments unify pairwise left to right, each step using the
substitution produced by the previous step (threading, via the
substitution-passing fold below); any other combination is failure. The
occurs-check is off (the spec's default), so unification is additionally
bounded by explicit fuel to stay total on the circular structures that the
missing check can admit. It never mutates: it returns a new substitution
value, and failure is `none`. -/
def unify : Nat → Term → Term → Subst → Option Subst
  | 0, _, _, _ => none
  | fuel + 1, a, b, s =>
    match walk s a, walk s b with
    | Term.var v, Term.var w =>
      if v = w then some s else some ((v, Term.var w) :: s)
    | Term.var v, t => some ((v, t) :: s)
    | t, Term.var v => some ((v, t) :: s)
    | Term.atom n, Term.atom m => if n = m then some s else none
    | Term.compound f as, Term.compound g bs =>
      if f = g ∧ as.length = bs.length then
        (as.zip bs).foldl (fun acc p => acc.bind (unify fuel p.1 p.2)) (some s)
      else none
    | _, _ => none

/-- Modelled from the spec: pairwise left-to-right unification of argument
lists with threading — exactly the fold the compound case of `unify`
performs. -/
def unifyArgs (fuel : Nat) (xs ys : List Term) (s : Subst) : Option Subst :=
  (xs.zip ys).foldl (fun acc p => acc.bind (unify fuel p.1 p.2)) (some s)

/-- Modelled from the spec: a ParseError reports position and reason. -/
structure ParseError where
  pos : Nat
  reason : String
deriving Repr, DecidableEq

/-- Token shapes of the clause/query text syntax of §6. -/
inductive Tok where
  | ident (name : String)
  | vident (name : String)
  | lparen
  | rparen
  | comma
  | dot
  | colondash
  | eof
deriving Repr, DecidableEq

/-- Characters that may continue an identifier. -/
def isIdentChar (c : Char) : Bool :=
  c.isAlphanum || c = '_'

/-- Modelled from the spec, §6: the tokenizer of the textual clause/query
syntax. An atom is an identifier starting with a lowercase letter; a
variable is an identifier starting with an uppercase letter or underscore;
the punctuation is `(`, `)`, `,`, `.` and the rule marker `:-`. (The
quoted-string atom form of §6 is unused by every claim and omitted.) Each
token carries its position; a final `eof` token carries the input length so
end-of-input errors can report a position. Fuel is the input length plus
one: every step consumes at least one character. -/
def tokenizeAux : Nat → List Char → Nat → Except ParseError (List (Tok × Nat))
  | 0, _, i => Except.error ⟨i, "tokenizer ran out of fuel"⟩
  | _ + 1, [], i => Except.ok [(Tok.eof, i)]
  | fuel + 1, c :: cs, i =>
    if c = ' ' || c = '\t' || c = '\n' || c = '\r' then
      tokenizeAux fuel cs (i + 1)
    else if c = '(' then
      (tokenizeAux fuel cs (i + 1)).map (fun ts => (Tok.lparen, i) :: ts)
    else if c = ')' then
      (tokenizeAux fuel cs (i + 1)).map (fun ts => (Tok.rparen, i) :: ts)
    else if c = ',' then
      (tokenizeAux fuel cs (i + 1)).map (fun ts => (Tok.comma, i) :: ts)
    else if c = '.' then
      (tokenizeAux fuel cs (i + 1)).map (fun ts => (Tok.dot, i) :: ts)
    else if c = ':' then
      match cs with
      | '-' :: cs' =>
        (tokenizeAux fuel cs' (i + 2)).map (fun ts => (Tok.colondash, i) :: ts)
      | _ => Except.error ⟨i, "expected - after : to form the rule marker"⟩
    else if c.isLower then
      let tk := cs.takeWhile isIdentChar
      let rest := cs.dropWhile isIdentChar
      (tokenizeAux fuel rest (i + 1 + tk.length)).map
        (fun ts => (Tok.ident (String.mk (c :: tk)), i) :: ts)
    else if c.isUpper || c = '_' then
      let tk := cs.takeWhile isIdentChar
      let rest := cs.dropWhile isIdentChar
      (tokenizeAux fuel rest (i + 1 + tk.length)).map
        (fun ts => (Tok.vident (String.mk (c :: tk)), i) :: ts)
    else
      Except.error ⟨i, "unexpected character"⟩

/-- Tokenize a whole input string. -/
def tokenize (text : String) : Except ParseError (List (Tok × Nat)) :=
  tokenizeAux (text.length + 1) text.toList 0

/-- Modelled from the spec: variables appearing in source text are local to
the one clause being parsed, so the term reader carries a per-clause map
from variable name to identifier (in first-occurrence order) and the next
fresh identifier. -/
structure PState where
  varMap : List (String × Nat)
  next : Nat
deriving Repr, DecidableEq

/-- Look a source variable name up, minting a fresh clause-local identifier
on first occurrence; a bare underscore is anonymous and is minted fresh at
every occurrence. -/
def freshVar (st : PState) (name : String) : Term × PState :=
  if name = "_" then
    (Term.var st.next, ⟨st.varMap, st.next + 1⟩)
  else
    match st.varMap.lookup name with
    | some v => (Term.var v, st)
    | none => (Term.var st.next, ⟨st.varMap ++ [(name, st.next)], st.next + 1⟩)

/-- Modelled from the spec, §6: reader of one term, written as an explicit
stack machine so it is total by token-count fuel. A stack frame is a
functor name with the (reversed) arguments read so far; `none` mode expects
a term to start, `some t` mode has just finished reading `t`. Malformed
input — a compound missing its closing parenthesis, an argument list
interrupted by anything but a comma or closing parenthesis, a stray
closing parenthesis, or no term at all — is a ParseError carrying the
offending position. -/
def parseTermAux :
    Nat → List (String × List Term) → Option Term → List (Tok × Nat) →
    PState → Except ParseError (Term × List (Tok × Nat) × PState)
  | 0, _, _, _, _ => Except.error ⟨0, "term reader ran out of fuel"⟩
  | fuel + 1, stack, none, toks, st =>
    match toks with
    | (Tok.ident n, _) :: (Tok.lparen, _) :: rest =>
      parseTermAux fuel ((n, []) :: stack) none rest st
    | (Tok.ident n, _) :: rest =>
      parseTermAux fuel stack (some (Term.atom n)) rest st
    | (Tok.vident n, _) :: rest =>
      let (t, st') := freshVar st n
      parseTermAux fuel stack (some t) rest st'
    | (_, p) :: _ => Except.error ⟨p, "expected a term"⟩
    | [] => Except.error ⟨0, "expected a term, found end of input"⟩
  | fuel + 1, stack, some t, toks, st =>
    match stack with
    | [] => Except.ok (t, toks, st)
    | (f, args) :: stack' =>
      match toks with
      | (Tok.comma, _) :: rest =>
        parseTermAux fuel ((f, t :: args) :: stack') none rest st
      | (Tok.rparen, _) :: rest =>
        parseTermAux fuel stack' (some (Term.compound f (t :: args).reverse)) rest st
      | (_, p) :: _ =>
        Except.error ⟨p, "unbalanced compound term: expected a comma or a closing parenthesis"⟩
      | [] => Except.error ⟨0, "unbalanced compound term: unexpected end of input"⟩

/-- Read one term from the token stream. -/
def parseTerm (toks : List (Tok × Nat)) (st : PState) :
    Except ParseError (Term × List (Tok × Nat) × PState) :=
  parseTermAux (toks.length + 1) [] none toks st

/-- Modelled from the spec, §6: a comma-separated conjunction of one or
more goals. -/
def parseConjAux :
    Nat → List (Tok × Nat) → PState →
    Except ParseError (List Term × List (Tok × Nat) × PState)
  | 0, _, _ => Except.error ⟨0, "conjunction reader ran out of fuel"⟩
  | fuel + 1, toks, st =>
    match parseTerm toks st with
    | Except.error e => Except.error e
    | Except.ok (t, rest, st') =>
      match rest with
      | (Tok.comma, _) :: rest' =>
        match parseConjAux fuel rest' st' with
        | Except.error e => Except.error e
        | Except.ok (ts, rest2, st2) => Except.ok (t :: ts, rest2, st2)
      | _ => Except.ok ([t], rest, st')

/-- Modelled from the spec: a Clause is a head plus an ordered sequence of
body goals (empty body for a fact), stored with its variables normalized to
the clause-local identifiers `0 .. nvars - 1` the reader minted — this is
what makes identically-named variables of two different clauses
unrelated. -/
structure Clause where
  head : Term
  body : List Term
  nvars : Nat
deriving Repr

/-- Reject a clause head the spec declares malformed: a head is "always a
Compound or Atom, never a Variable". -/
def checkHead (head : Term) (pos : Nat) : Except ParseError Unit :=
  match head with
  | Term.var _ => Except.error ⟨pos, "variable-shaped head"⟩
  | _ => Except.ok ()

/-- Require the terminating period and then the end of the input. -/
def expectDotEnd (toks : List (Tok × Nat)) : Except ParseError Unit :=
  match toks with
  | (Tok.dot, _) :: (Tok.eof, _) :: _ => Except.ok ()
  | (Tok.dot, _) :: (_, p) :: _ => Except.error ⟨p, "text after the terminating period"⟩
  | (Tok.eof, p) :: _ => Except.error ⟨p, "unterminated clause: missing terminating period"⟩
  | (_, p) :: _ => Except.error ⟨p, "expected the terminating period"⟩
  | [] => Except.error ⟨0, "expected the terminating period"⟩

/-- Report an empty head distinctly, as §4.2 lists it: input whose first
token already ends the head position. -/
def checkNonEmptyHead (toks : List (Tok × Nat)) : Except ParseError Unit :=
  match toks with
  | (Tok.dot, p) :: _ => Except.error ⟨p, "empty head"⟩
  | (Tok.colondash, p) :: _ => Except.error ⟨p, "empty head"⟩
  | (Tok.eof, p) :: _ => Except.error ⟨p, "empty head"⟩
  | _ => Except.ok ()

/-- Modelled from the spec, §4.2: `add_fact` "parses `text` as a single
Term followed by a terminating marker; stores it as a Clause with empty
body" — this is the parsing half, producing the Clause or the
ParseError. -/
def parseFactText (text : String) : Except ParseError Clause :=
  match tokenize text with
  | Except.error e => Except.error e
  | Except.ok toks =>
    match checkNonEmptyHead toks with
    | Except.error e => Except.error e
    | Except.ok _ =>
      match parseTerm toks ⟨[], 0⟩ with
      | Except.error e => Except.error e
      | Except.ok (head, rest, st) =>
        match checkHead head 0 with
        | Except.error e => Except.error e
        | Except.ok _ =>
          match expectDotEnd rest with
          | Except.error e => Except.error e
          | Except.ok _ => Except.ok ⟨head, [], st.next⟩

/-- Modelled from the spec, §4.2: `add_rule` "parses `text` as
`head :- goal, goal, ..., goal` terminated; stores the Clause" — the
parsing half. -/
def parseRuleText (text : String) : Except ParseError Clause :=
  match tokenize text with
  | Except.error e => Except.error e
  | Except.ok toks =>
    match checkNonEmptyHead toks with
    | Except.error e => Except.error e
    | Except.ok _ =>
      match parseTerm toks ⟨[], 0⟩ with
      | Except.error e => Except.error e
      | Except.ok (head, rest, st) =>
        match checkHead head 0 with
        | Except.error e => Except.error e
        | Except.ok _ =>
          match rest with
          | (Tok.colondash, _) :: rest2 =>
            match parseConjAux (rest2.length + 1) rest2 st with
            | Except.error e => Except.error e
            | Except.ok (body, rest3, st2) =>
              match expectDotEnd rest3 with
              | Except.error e => Except.error e
              | Except.ok _ => Except.ok ⟨head, body, st2.next⟩
          | (_, p) :: _ => Except.error ⟨p, "expected the rule marker"⟩
          | [] => Except.error ⟨0, "expected the rule marker"⟩

/-- Modelled from the spec, §6: a query is one goal or a comma-separated
conjunction of goals, no terminating period required (one is tolerated);
the reader also reports the query's named variables in first-occurrence
order together with the next fresh identifier. -/
def parseQueryText (text : String) :
    Except ParseError (List Term × List (String × Nat) × Nat) :=
  match tokenize text with
  | Except.error e => Except.error e
  | Except.ok toks =>
    match parseConjAux (toks.length + 1) toks ⟨[], 0⟩ with
    | Except.error e => Except.error e
    | Except.ok (goals, rest, st) =>
      match rest with
      | (Tok.eof, _) :: _ => Except.ok (goals, st.varMap, st.next)
      | (Tok.dot, _) :: (Tok.eof, _) :: _ => Except.ok (goals, st.varMap, st.next)
      | (_, p) :: _ => Except.error ⟨p, "unexpected text after the query"⟩
      | [] => Except.error ⟨0, "unexpected end of query"⟩

/-- Modelled from the spec: the KnowledgeBase is an insertion-ordered
sequence of Clauses. (The spec's `(functor, arity)` index is a lookup
optimization; `candidates` below realizes the same insertion-order
candidate sequence directly.) -/
abbrev KnowledgeBase := List Clause

/-- Modelled from the spec, §4.2: `add_fact(text)` appends the parsed fact
Clause to the ordered store, or fails with the ParseError and leaves the
KnowledgeBase unchanged. The pair returns the store and the error, if
any. -/
def addFact (kb : KnowledgeBase) (text : String) : KnowledgeBase × Option ParseError :=
  match parseFactText text with
  | Except.ok c => (kb ++ [c], none)
  | Except.error e => (kb, some e)

/-- Modelled from the spec, §4.2: `add_rule(text)`, same contract as
`add_fact`. -/
def addRule (kb : KnowledgeBase) (text : String) : KnowledgeBase × Option ParseError :=
  match parseRuleText text with
  | Except.ok c => (kb ++ [c], none)
  | Except.error e => (kb, some e)

/-- Functor and arity of a clause head or goal; an atom is the 0-ary
case and a variable has none. -/
def functorArity : Term → Option (String × Nat)
  | Term.atom n => some (n, 0)
  | Term.var _ => none
  | Term.compound f args => some (f, args.length)

/-- Modelled from the spec, §4.2: `candidates(functor, arity)` returns all
stored clauses whose head matches, in insertion order (first-declared,
first-tried). -/
def candidates (kb : KnowledgeBase) (fa : String × Nat) : List Clause :=
  kb.filter (fun c => functorArity c.head = some fa)

mutual
/-- Rename every variable of a term upward by an offset — the clause
"copying" of §4.3: with the offset being the next fresh identifier and the
clause's variables normalized below `nvars`, every variable of the copy is
fresh. -/
def renameTerm (off : Nat) : Term → Term
  | Term.atom n => Term.atom n
  | Term.var v => Term.var (v + off)
  | Term.compound f args => Term.compound f (renameList off args)

/-- Rename every variable of a term list upward by an offset. -/
def renameList (off : Nat) : List Term → List Term
  | [] => []
  | t :: ts => renameTerm off t :: renameList off ts
end

/-- Modelled from the spec, §4.3: rename every variable in a candidate
clause to fresh identifiers before attempting unification. -/
def renameClause (off : Nat) (c : Clause) : Clause :=
  ⟨renameTerm off c.head, renameList off c.body, c.nvars⟩

mutual
/-- Variables occurring in a term, in order of occurrence. -/
def termVars : Term → List Nat
  | Term.atom _ => []
  | Term.var v => [v]
  | Term.compound _ args => listVars args

/-- Variables occurring in a term list. -/
def listVars : List Term → List Nat
  | [] => []
  | t :: ts => termVars t ++ listVars ts
end

/-- Modelled from the spec, §4.3: the SLD resolution executor
`solve(goals, subst)`. It takes the unification fuel, the store, the
remaining step budget, the next fresh variable identifier, the goal
conjunction and the current substitution, and returns the ordered solution
substitutions together with a flag that is true iff some branch exhausted
the budget — the spec's `SearchBudgetExceeded`, reported distinctly from
ordinary failure. An empty goal list yields the substitution as one
solution; otherwise the leftmost goal is resolved against each candidate
clause in store order, the candidate being renamed to fresh variables
before the unification attempt, and the clause body is prepended to the
remaining goals (depth-first, leftmost-goal, first-clause-first). A branch
whose budget reaches zero is aborted with the flag set while sibling
candidate branches continue. -/
def solve (ufuel : Nat) (kb : KnowledgeBase) : Nat → Nat → List Term → Subst → List Subst × Bool
  | 0, _, _, _ => ([], true)
  | fuel + 1, ctr, goals, s =>
    match goals with
    | [] => ([s], false)
    | g :: rest =>
      match functorArity (walk s g) with
      | none => ([], false)
      | some fa =>
        ((candidates kb fa).map (fun c =>
          match unify ufuel g (renameTerm ctr c.head) s with
          | none => ([], false)
          | some s' => solve ufuel kb fuel (ctr + c.nvars) (renameList ctr c.body ++ rest) s')).foldr
          (fun r acc => (r.1 ++ acc.1, r.2 || acc.2)) ([], false)

/-- Resolve a term fully through a substitution (deep application), fuel
bounded because the absent occurs-check can admit circular bindings. -/
def resolveTerm : Nat → Subst → Term → Term
  | 0, _, t => t
  | fuel + 1, s, t =>
    match walk s t with
    | Term.compound f args => Term.compound f (args.map (resolveTerm fuel s))
    | t' => t'

/-- Modelled from the spec: a Solution is the restriction of the final
substitution to the variables occurring in the original query, rendered as
a mapping from variable name to (possibly only partially ground) term. -/
abbrev Solution := List (String × Term)

/-- Build the Solution for one final substitution from the query's named
variables in first-occurrence order. -/
def mkSolution (rfuel : Nat) (qvars : List (String × Nat)) (s : Subst) : Solution :=
  qvars.map (fun p => (p.1, resolveTerm rfuel s (Term.var p.2)))

/-- Default unification fuel, ample for every term the claims touch. -/
def defaultUFuel : Nat := 64

/-- Default step budget of the executor; the spec makes the budget
caller-configurable, and `queryWithBudget` exposes it. -/
def defaultBudget : Nat := 64

/-- Default resolution depth for rendering solution terms. -/
def defaultRFuel : Nat := 16

/-- Modelled from the spec, §6: `query(text)` with an explicit caller
budget — parses the text into goals, runs the executor from the query's own
fresh-variable frontier, and returns the ordered Solutions together with
the budget-exhaustion flag. -/
def queryWithBudget (kb : KnowledgeBase) (ufuel budget : Nat) (text : String) :
    Except ParseError (List Solution × Bool) :=
  match parseQueryText text with
  | Except.error e => Except.error e
  | Except.ok (goals, qvars, nv) =>
    let r := solve ufuel kb budget nv goals []
    Except.ok (r.1.map (mkSolution defaultRFuel qvars), r.2)

/-- Modelled from the spec, §6:
`query(text) -> Result<sequence of Solution, ParseError>`, at the default
budget. -/
def query (kb : KnowledgeBase) (text : String) : Except ParseError (List Solution) :=
  (queryWithBudget kb defaultUFuel defaultBudget text).map Prod.fst

mutual
/-- Upper bound (exclusive) on the variable identifiers of a term. -/
def varBound : Term → Nat
  | Term.atom _ => 0
  | Term.var v => v + 1
  | Term.compound _ args => listVarBound args

/-- Upper bound (exclusive) on the variable identifiers of a term list. -/
def listVarBound : List Term → Nat
  | [] => 0
  | t :: ts => max (varBound t) (listVarBound ts)
end

/-- Modelled from the spec, §4.4: how a goal failed — "unmatched" (no
candidate clause head unified) versus "subgoal failed" (a candidate
matched but its body could not be proved); the two are distinguishable in
the rendered explanation. -/
inductive FailKind where
  | unmatched
  | subgoalFailed
deriving Repr, DecidableEq

/-- Modelled from the spec: a ProofNode records a goal together with the
clause instance applied to it and the proofs of that clause's body goals in
left-to-right order; a failed leaf has no clause and no children and
carries the failure kind instead. -/
inductive ProofNode where
  | applied (goal : Term) (c : Clause) (children : List ProofNode)
  | failedLeaf (goal : Term) (kind : FailKind)
deriving Repr

/-- Modelled from the spec, §4.4: the proof builder runs alongside
resolution — this is `solve` again, each solution now paired with the
ordered forest of ProofNodes (one tree per goal of the conjunction): each
successful clause application pushes a node recording the goal and the
renamed clause instance that matched, its children being the proofs of the
clause's body goals. -/
def solveP (ufuel : Nat) (kb : KnowledgeBase) :
    Nat → Nat → List Term → Subst → List (Subst × List ProofNode) × Bool
  | 0, _, _, _ => ([], true)
  | fuel + 1, ctr, goals, s =>
    match goals with
    | [] => ([(s, [])], false)
    | g :: rest =>
      match functorArity (walk s g) with
      | none => ([], false)
      | some fa =>
        ((candidates kb fa).map (fun c =>
          match unify ufuel g (renameTerm ctr c.head) s with
          | none => ([], false)
          | some s' =>
            let r := solveP ufuel kb fuel (ctr + c.nvars) (renameList ctr c.body ++ rest) s'
            (r.1.map (fun (q : Subst × List ProofNode) =>
              (q.1,
               ProofNode.applied g (renameClause ctr c) (q.2.take c.body.length) ::
                 q.2.drop c.body.length)),
             r.2))).foldr
          (fun r acc => (r.1 ++ acc.1, r.2 || acc.2)) ([], false)

/-- First candidate clause whose renamed head unifies with the goal, if
any — the discriminator between the two failure kinds of §4.4. -/
def firstUnifiable (ufuel : Nat) (ctr : Nat) (g : Term) (s : Subst) :
    List Clause → Option Clause
  | [] => none
  | c :: cs =>
    match unify ufuel g (renameTerm ctr c.head) s with
    | some _ => some c
    | none => firstUnifiable ufuel ctr g s cs

/-- Modelled from the spec, §4.4: the failure leaf recorded for a failed
goal — "unmatched" when no candidate clause head unified, "subgoal failed"
when some candidate head matched but the goal nonetheless has no
solution. -/
def failNode (ufuel : Nat) (kb : KnowledgeBase) (ctr : Nat) (g : Term) (s : Subst) :
    ProofNode :=
  match functorArity (walk s g) with
  | none => ProofNode.failedLeaf g FailKind.unmatched
  | some fa =>
    match firstUnifiable ufuel ctr g s (candidates kb fa) with
    | none => ProofNode.failedLeaf g FailKind.unmatched
    | some _ => ProofNode.failedLeaf g FailKind.subgoalFailed

/-- A conservative fresh-variable frontier after one budgeted sub-search:
no branch of `solve` allocates more than the budget times the largest
clause width. -/
def ctrAfter (kb : KnowledgeBase) (budget ctr : Nat) : Nat :=
  ctr + budget * kb.foldr (fun c a => max c.nvars a) 0

/-- Modelled from the spec, §4.4: for a failed top-level query the builder
renders the first failing branch — walk the conjunction left to right,
following the first solution of each goal that does succeed on its own,
and record the failure leaf of the first goal that does not. -/
def failBranch (ufuel : Nat) (kb : KnowledgeBase) (budget : Nat) :
    List Term → Nat → Subst → ProofNode
  | [], _, _ => ProofNode.failedLeaf (Term.atom "true") FailKind.subgoalFailed
  | [g], ctr, s => failNode ufuel kb ctr g s
  | g :: g2 :: rest, ctr, s =>
    match (solve ufuel kb budget ctr [g] s).1 with
    | [] => failNode ufuel kb ctr g s
    | s1 :: _ => failBranch ufuel kb budget (g2 :: rest) (ctrAfter kb budget ctr) s1

mutual
/-- Textual rendering of a term, §6 syntax. -/
def termToString : Term → String
  | Term.atom n => n
  | Term.var v => "_V" ++ toString v
  | Term.compound f args => f ++ "(" ++ listToString args ++ ")"

/-- Textual rendering of a comma-separated term list. -/
def listToString : List Term → String
  | [] => ""
  | [t] => termToString t
  | t :: t2 :: ts => termToString t ++ ", " ++ listToString (t2 :: ts)
end

/-- Textual rendering of a clause. -/
def clauseToString (c : Clause) : String :=
  match c.body with
  | [] => termToString c.head ++ "."
  | _ => termToString c.head ++ " :- " ++ listToString c.body ++ "."

/-- One rendered line of a derivation: its indentation depth and its
text naming the goal and the clause applied to it. -/
def appliedEntry (depth : Nat) (g : Term) (c : Clause) : Nat × String :=
  (depth, termToString g ++ " by " ++ clauseToString c)

/-- One rendered line for a failed goal; the two failure kinds render
distinct markers. -/
def failEntry (depth : Nat) (g : Term) (k : FailKind) : Nat × String :=
  (depth,
   termToString g ++
     (match k with
      | FailKind.unmatched => " FAILED: unmatched, no candidate clause head unifies"
      | FailKind.subgoalFailed =>
        " FAILED: subgoal failed, a candidate head matched but its body could not be proved"))

mutual
/-- Modelled from the spec, §4.4: render a proof tree as indented entries,
each naming the goal and, for applied steps, the clause used; depth of
indentation mirrors proof depth. -/
def renderNode (depth : Nat) : ProofNode → List (Nat × String)
  | ProofNode.applied g c kids => appliedEntry depth g c :: renderForest (depth + 1) kids
  | ProofNode.failedLeaf g k => [failEntry depth g k]

/-- Render a forest of proof trees at one depth. -/
def renderForest (depth : Nat) : List ProofNode → List (Nat × String)
  | [] => []
  | n :: ns => renderNode depth n ++ renderForest depth ns
end

mutual
/-- The entries of every applied clause along a derivation tree — what the
explanation must name. -/
def appliedEntriesNode (depth : Nat) : ProofNode → List (Nat × String)
  | ProofNode.applied g c kids => appliedEntry depth g c :: appliedEntriesForest (depth + 1) kids
  | ProofNode.failedLeaf _ _ => []

/-- The applied-clause entries of a forest. -/
def appliedEntriesForest (depth : Nat) : List ProofNode → List (Nat × String)
  | [] => []
  | n :: ns => appliedEntriesNode depth n ++ appliedEntriesForest depth ns
end

/-- Indent one rendered entry. -/
def indentLine (e : Nat × String) : String :=
  String.join (List.replicate e.1 "  ") ++ e.2

/-- Join rendered entries into the explanation text. -/
def renderText (es : List (Nat × String)) : String :=
  String.intercalate (String.mk [Char.ofNat 10]) (es.map indentLine)

/-- Modelled from the spec, §4.4 and §6: the entry list behind `explain` —
run the same resolution with the proof builder; if there is a solution,
render the derivation forest of the first one, otherwise render the first
failing branch with the reason. -/
def explainEntries (kb : KnowledgeBase) (ufuel budget : Nat) (text : String) :
    Except ParseError (List (Nat × String)) :=
  match parseQueryText text with
  | Except.error e => Except.error e
  | Except.ok (goals, _, nv) =>
    match (solveP ufuel kb budget nv goals []).1 with
    | (_, forest) :: _ => Except.ok (renderForest 0 forest)
    | [] => Except.ok (renderNode 0 (failBranch ufuel kb budget goals nv []))

/-- Modelled from the spec, §6:
`explain(text) -> Result<string, ParseError>` — runs the same resolution
and renders its proof trace (success) or failure reasoning (no
solutions). -/
def explainQuery (kb : KnowledgeBase) (text : String) : Except ParseError String :=
  (explainEntries kb defaultUFuel defaultBudget text).map renderText

/-- An operation a collaborator can apply to one engine, in sequence. -/
inductive Op where
  | fact (text : String)
  | rule (text : String)
  | ask (text : String)

/-- The externally observable outcome of one operation. -/
inductive Out where
  | mutated (e : Option ParseError)
  | answered (r : Except ParseError (List Solution))

/-- Modelled from the spec, §5: the single-owner lifecycle of one
KnowledgeBase — operations apply strictly in sequence, mutations feed the
store of every later operation, and each query's solution sequence is
materialized as the value recorded at its own position in the trace. -/
def runOps : KnowledgeBase → List Op → List Out
  | _, [] => []
  | kb, Op.fact t :: ops =>
    match addFact kb t with
    | (kb', e) => Out.mutated e :: runOps kb' ops
  | kb, Op.rule t :: ops =>
    match addRule kb t with
    | (kb', e) => Out.mutated e :: runOps kb' ops
  | kb, Op.ask t :: ops => Out.answered (query kb t) :: runOps kb ops

/-- The knowledge base of the mortality example: `human(socrates).` then
`human(plato).` then `mortal(X) :- human(X).`, added in that order. -/
def kbMortal : KnowledgeBase :=
  (addRule ((addFact ((addFact [] "human(socrates).").1) "human(plato).").1)
    "mortal(X) :- human(X).").1

/-- The mortality example with the two facts inserted in the opposite
order. -/
def kbMortalRev : KnowledgeBase :=
  (addRule ((addFact ((addFact [] "human(plato).").1) "human(socrates).").1)
    "mortal(X) :- human(X).").1

/-- A knowledge base holding exactly `human(socrates).`. -/
def kbHuman : KnowledgeBase :=
  (addFact [] "human(socrates).").1

/-- The teaching-chain knowledge base: the two teacher facts and the two
`teaching_chain` rules (base case first, recursive case second). -/
def kbTeach : KnowledgeBase :=
  (addRule
    ((addRule
      ((addFact ((addFact [] "teacher(socrates, plato).").1) "teacher(plato, aristotle).").1)
      "teaching_chain(X, Z) :- teacher(X, Z).").1)
    "teaching_chain(X, Z) :- teacher(X, Y), teaching_chain(Y, Z).").1

/-- A store whose first candidate for `p` descends forever and whose
second candidate is a fact: the looping branch exhausts any budget while
the sibling branch still yields its solutions. -/
def kbLoop : KnowledgeBase :=
  (addFact ((addRule [] "p :- p.").1) "p.").1

/-- Well-formed reader state: every identifier recorded in the variable
map is below the next fresh one. -/
def stateWF (st : PState) : Prop :=
  ∀ p ∈ st.varMap, p.2 < st.next

/-! Helper lemmas shared by the claim theorems. -/

/-- Every variable of a renamed term lies in the fresh window. -/
theorem renameTerm_fresh (off : Nat) (t : Term) :
    ∀ v ∈ termVars (renameTerm off t), off ≤ v ∧ v < off + varBound t :=
  @Term.rec
    (fun t => ∀ v ∈ termVars (renameTerm off t), off ≤ v ∧ v < off + varBound t)
    (fun ts => ∀ v ∈ listVars (renameList off ts), off ≤ v ∧ v < off + listVarBound ts)
    (by intro n v hv; simp [renameTerm, termVars] at hv)
    (by intro w v hv; simp [renameTerm, termVars] at hv; subst hv; simp [varBound]; omega)
    (by intro f args ih; simpa [renameTerm, termVars, varBound] using ih)
    (by intro v hv; simp [renameList, listVars] at hv)
    (by
      intro hd tl ih1 ih2 v hv
      simp [renameList, listVars] at hv
      rcases hv with h | h
      · have := ih1 v h
        simp [listVarBound]
        omega
      · have := ih2 v h
        simp [listVarBound]
        omega)
    t

/-- Variable lists of renamed term lists lie in the fresh window. -/
theorem renameList_fresh (off : Nat) (ts : List Term) :
    ∀ v ∈ listVars (renameList off ts), off ≤ v ∧ v < off + listVarBound ts := by
  induction ts with
  | nil => simp [renameList, listVars]
  | cons hd tl ih =>
    intro v hv
    simp [renameList, listVars] at hv
    rcases hv with h | h
    · have := renameTerm_fresh off hd v h
      simp [listVarBound]; omega
    · have := ih v h
      simp [listVarBound]; omega

/-- Clause copies made at disjoint fresh windows share no variables. -/
theorem renameTerm_disjoint (off1 off2 : Nat) (t u : Term)
    (h : off1 + varBound t ≤ off2) :
    ∀ v ∈ termVars (renameTerm off1 t), v ∉ termVars (renameTerm off2 u) := by
  intro v hv hv2
  have h1 := renameTerm_fresh off1 t v hv
  have h2 := renameTerm_fresh off2 u v hv2
  omega

/-- Applied-clause entries are among the rendered entries of a proof
tree. -/
theorem appliedEntries_sub_render (n : ProofNode) :
    ∀ depth, ∀ e ∈ appliedEntriesNode depth n, e ∈ renderNode depth n :=
  @ProofNode.rec
    (fun n => ∀ depth, ∀ e ∈ appliedEntriesNode depth n, e ∈ renderNode depth n)
    (fun ns => ∀ depth, ∀ e ∈ appliedEntriesForest depth ns, e ∈ renderForest depth ns)
    (by
      intro g c kids ih depth e he
      simp [appliedEntriesNode, renderNode] at he ⊢
      rcases he with h | h
      · exact Or.inl h
      · exact Or.inr (ih (depth + 1) e h))
    (by intro g k depth e he; simp [appliedEntriesNode] at he)
    (by intro depth e he; simp [appliedEntriesForest] at he)
    (by
      intro hd tl ih1 ih2 depth e he
      simp [appliedEntriesForest, renderForest] at he ⊢
      rcases he with h | h
      · exact Or.inl (ih1 depth e h)
      · exact Or.inr (ih2 depth e h))
    n

/-- The applied-clause entries of a forest are among its rendered
entries. -/
theorem appliedEntriesForest_sub_render (ns : List ProofNode) (depth : Nat) :
    ∀ e ∈ appliedEntriesForest depth ns, e ∈ renderForest depth ns := by
  induction ns with
  | nil => simp [appliedEntriesForest]
  | cons hd tl ih =>
    intro e he
    simp [appliedEntriesForest, renderForest] at he ⊢
    rcases he with h | h
    · exact Or.inl (appliedEntries_sub_render hd depth e h)
    · exact Or.inr (ih e h)

/-- A failure analysis of a conjunction is always a failure leaf naming
some goal and one of the two failure kinds. -/
theorem failBranch_failedLeaf (ufuel : Nat) (kb : KnowledgeBase) (budget : Nat) :
    ∀ goals ctr s, ∃ g k, failBranch ufuel kb budget goals ctr s = ProofNode.failedLeaf g k := by
  intro goals
  induction goals with
  | nil => intro ctr s; exact ⟨Term.atom "true", FailKind.subgoalFailed, rfl⟩
  | cons g rest ih =>
    intro ctr s
    cases rest with
    | nil =>
      simp [failBranch, failNode]
      cases functorArity (walk s g) with
      | none => exact ⟨g, FailKind.unmatched, rfl⟩
      | some fa =>
        simp
        cases firstUnifiable ufuel ctr g s (candidates kb fa) with
        | none => exact ⟨g, FailKind.unmatched, rfl⟩
        | some c => exact ⟨g, FailKind.subgoalFailed, rfl⟩
    | cons g2 rest2 =>
      simp [failBranch]
      cases (solve ufuel kb budget ctr [g] s).1 with
      | nil =>
        simp [failNode]
        cases functorArity (walk s g) with
        | none => exact ⟨g, FailKind.unmatched, rfl⟩
        | some fa =>
          simp
          cases firstUnifiable ufuel ctr g s (candidates kb fa) with
          | none => exact ⟨g, FailKind.unmatched, rfl⟩
          | some c => exact ⟨g, FailKind.subgoalFailed, rfl⟩
      | cons s1 tl => exact ih (ctrAfter kb budget ctr) s1

theorem foldl_bind_none (fuel : Nat) (l : List (Term × Term)) :
    l.foldl (fun acc p => acc.bind (unify fuel p.1 p.2)) none = none := by
  induction l with
  | nil => rfl
  | cons hd tl ih => simpa [Option.bind] using ih

/-- Threading: the first argument pair is unified first, and the rest
continue from the substitution it produced. -/
theorem unifyArgs_cons (fuel : Nat) (x y : Term) (xs ys : List Term) (s : Subst) :
    unifyArgs fuel (x :: xs) (y :: ys) s =
      match unify fuel x y s with
      | some s2 => unifyArgs fuel xs ys s2
      | none => none := by
  unfold unifyArgs
  rw [List.zip_cons_cons, List.foldl_cons, Option.some_bind]
  cases h : unify fuel x y s with
  | none => exact foldl_bind_none fuel (xs.zip ys)
  | some s2 => rfl

/-- The compound case of `unify`, unfolded. -/
theorem unify_compound_eq (fuel : Nat) (f g : String) (as bs : List Term) (s : Subst) :
    unify (fuel + 1) (Term.compound f as) (Term.compound g bs) s =
      if f = g ∧ as.length = bs.length then unifyArgs fuel as bs s else none := rfl

theorem lookup_mem {α β : Type} [BEq α] [LawfulBEq α] :
    ∀ (l : List (α × β)) (k : α) (v : β), l.lookup k = some v → (k, v) ∈ l := by
  intro l
  induction l with
  | nil => intro k v h; simp [List.lookup] at h
  | cons p tl ih =>
    intro k v h
    obtain ⟨a, b⟩ := p
    by_cases he : k = a
    · subst he
      simp [List.lookup] at h
      subst h
      exact List.mem_cons_self _ _
    · have hb : (k == a) = false := beq_false_of_ne he
      simp [List.lookup, hb] at h
      exact List.mem_cons_of_mem _ (ih k v h)

theorem freshVar_bound (st : PState) (name : String) (h : stateWF st) :
    stateWF (freshVar st name).2 ∧ st.next ≤ (freshVar st name).2.next ∧
      varBound (freshVar st name).1 ≤ (freshVar st name).2.next := by
  unfold freshVar
  split
  · refine ⟨?_, by simp, by simp [varBound]⟩
    intro p hp
    simp only at hp
    exact Nat.lt_succ_of_lt (h p hp)
  · cases hl : st.varMap.lookup name with
    | some v =>
      simp only [hl]
      refine ⟨h, Nat.le_refl _, ?_⟩
      have := h (name, v) (lookup_mem st.varMap name v hl)
      simp [varBound]
      omega
    | none =>
      simp only [hl]
      refine ⟨?_, by simp, by simp [varBound]⟩
      intro p hp
      simp only [List.mem_append, List.mem_singleton] at hp
      rcases hp with hp | hp
      · exact Nat.lt_succ_of_lt (h p hp)
      · subst hp; simp

theorem listVarBound_append (l1 l2 : List Term) :
    listVarBound (l1 ++ l2) = max (listVarBound l1) (listVarBound l2) := by
  induction l1 with
  | nil => simp [listVarBound]
  | cons t ts ih => simp [listVarBound, ih]; omega

theorem listVarBound_reverse (l : List Term) :
    listVarBound l.reverse = listVarBound l := by
  induction l with
  | nil => rfl
  | cons t ts ih =>
    simp [List.reverse_cons, listVarBound_append, ih, listVarBound]
    omega

/-- Bounds carried by the term reader: parsed terms and reader state only
mint identifiers below the final fresh frontier, monotonically. -/
theorem parseTermAux_bound :
    ∀ fuel stack mode toks st t rest st',
      parseTermAux fuel stack mode toks st = Except.ok (t, rest, st') →
      stateWF st →
      (∀ fr ∈ stack, listVarBound (Prod.snd fr) ≤ st.next) →
      (∀ u, mode = some u → varBound u ≤ st.next) →
      stateWF st' ∧ st.next ≤ st'.next ∧ varBound t ≤ st'.next := by
  intro fuel stack mode toks st
  induction fuel, stack, mode, toks, st using parseTermAux.induct with
  | case1 stack mode toks st =>
    intro t rest st' h
    simp [parseTermAux] at h
  | case2 fuel stack st n p q rest ih =>
    intro t rest' st' h hWF hStack hMode
    simp only [parseTermAux] at h
    refine ih t rest' st' h hWF ?_ (by simp)
    intro fr hfr
    rcases List.mem_cons.mp hfr with hfr | hfr
    · subst hfr; simp [listVarBound]
    · exact hStack fr hfr
  | case3 fuel stack st n p rest hnl ih =>
    intro t rest' st' h hWF hStack hMode
    rcases rest with _ | ⟨⟨tok, q⟩, rest2⟩
    · simp only [parseTermAux] at h
      exact ih t rest' st' h hWF hStack (by intro u hu; cases hu; simp [varBound])
    · cases tok with
      | lparen => exact absurd rfl (hnl q rest2)
      | _ =>
        simp only [parseTermAux] at h
        exact ih t rest' st' h hWF hStack (by intro u hu; cases hu; simp [varBound])
  | case4 fuel stack st n p rest t0 st0 hfv ih =>
    intro t rest' st' h hWF hStack hMode
    simp only [parseTermAux] at h
    rw [hfv] at h
    have hb := freshVar_bound st n hWF
    rw [hfv] at hb
    obtain ⟨hWF0, hmono, hvb⟩ := hb
    have := ih t rest' st' h hWF0
      (fun fr hfr => Nat.le_trans (hStack fr hfr) hmono)
      (by intro u hu; cases hu; exact hvb)
    exact ⟨this.1, Nat.le_trans hmono this.2.1, this.2.2⟩
  | case5 fuel stack st tok p tail h1 h2 h3 =>
    intro t rest' st' h
    cases tok with
    | ident n => exact absurd rfl (h2 n)
    | vident n => exact absurd rfl (h3 n)
    | _ => simp only [parseTermAux] at h; simp at h
  | case6 fuel stack st =>
    intro t rest' st' h
    simp only [parseTermAux] at h
    simp at h
  | case7 fuel t0 toks st =>
    intro t rest' st' h hWF hStack hMode
    simp only [parseTermAux] at h
    simp at h
    obtain ⟨h1, h2, h3⟩ := h
    subst h1; subst h3
    exact ⟨hWF, Nat.le_refl _, hMode t0 rfl⟩
  | case8 fuel t0 st f args stack' p rest ih =>
    intro t rest' st' h hWF hStack hMode
    simp only [parseTermAux] at h
    refine ih t rest' st' h hWF ?_ (by simp)
    intro fr hfr
    rcases List.mem_cons.mp hfr with hfr | hfr
    · subst hfr
      have h1 := hMode t0 rfl
      have h2 : listVarBound args ≤ st.next := by
        have := hStack (f, args) (List.mem_cons_self _ _)
        simpa using this
      simp [listVarBound]
      omega
    · exact hStack fr (List.mem_cons_of_mem _ hfr)
  | case9 fuel t0 st f args stack' p rest ih =>
    intro t rest' st' h hWF hStack hMode
    simp only [parseTermAux] at h
    refine ih t rest' st' h hWF
      (fun fr hfr => hStack fr (List.mem_cons_of_mem _ hfr)) ?_
    intro u hu
    cases hu
    have h1 := hMode t0 rfl
    have h2 : listVarBound args ≤ st.next := by
      have := hStack (f, args) (List.mem_cons_self _ _)
      simpa using this
    simp [varBound, listVarBound_append, listVarBound_reverse, listVarBound]
    omega
  | case10 fuel t0 st f args stack' tok p tail h1 h2 =>
    intro t rest' st' h
    cases tok with
    | comma => exact absurd rfl h1
    | rparen => exact absurd rfl h2
    | _ => simp only [parseTermAux] at h; simp at h
  | case11 fuel t0 st f args stack' =>
    intro t rest' st' h
    simp only [parseTermAux] at h
    simp at h

theorem parseTerm_bound (toks : List (Tok × Nat)) (st : PState) (t : Term)
    (rest : List (Tok × Nat)) (st' : PState)
    (h : parseTerm toks st = Except.ok (t, rest, st')) (hWF : stateWF st) :
    stateWF st' ∧ st.next ≤ st'.next ∧ varBound t ≤ st'.next := by
  exact parseTermAux_bound _ _ _ _ _ _ _ _ h hWF (by simp) (by simp)

theorem parseConjAux_bound (fuel : Nat) :
    ∀ toks st goals rest st',
      parseConjAux fuel toks st = Except.ok (goals, rest, st') →
      stateWF st →
      stateWF st' ∧ st.next ≤ st'.next ∧ listVarBound goals ≤ st'.next := by
  induction fuel with
  | zero => intro toks st goals rest st' h; simp [parseConjAux] at h
  | succ n ih =>
    intro toks st goals rest st' h hWF
    unfold parseConjAux at h
    split at h
    · simp at h
    · rename_i t rest1 st1 hp
      have hb1 := parseTerm_bound _ _ _ _ _ hp hWF
      split at h
      · split at h
        · simp at h
        · rename_i goals2 rest2 st2 hc
          simp at h
          obtain ⟨h1, h2, h3⟩ := h
          subst h1; subst h2; subst h3
          have hb2 := ih _ _ _ _ _ hc hb1.1
          refine ⟨hb2.1, Nat.le_trans hb1.2.1 hb2.2.1, ?_⟩
          simp [listVarBound]
          constructor
          · exact Nat.le_trans hb1.2.2 hb2.2.1
          · exact hb2.2.2
      · simp at h
        obtain ⟨h1, h2, h3⟩ := h
        subst h1; subst h2; subst h3
        exact ⟨hb1.1, hb1.2.1, by simp [listVarBound]; exact hb1.2.2⟩

/-- Every clause accepted by `add_fact` has all its variables normalized
below its recorded variable count. -/
theorem parseFactText_wf (text : String) (c : Clause)
    (h : parseFactText text = Except.ok c) :
    varBound c.head ≤ c.nvars ∧ listVarBound c.body ≤ c.nvars := by
  unfold parseFactText at h
  split at h
  · simp at h
  · split at h
    · simp at h
    · split at h
      · simp at h
      · rename_i head rest st hp
        split at h
        · simp at h
        · split at h
          · simp at h
          · simp at h
            have hb := parseTerm_bound _ _ _ _ _ hp (by intro p hp2; simp at hp2)
            subst h
            exact ⟨hb.2.2, by simp [listVarBound]⟩

/-- Every clause accepted by `add_rule` has all its variables normalized
below its recorded variable count. -/
theorem parseRuleText_wf (text : String) (c : Clause)
    (h : parseRuleText text = Except.ok c) :
    varBound c.head ≤ c.nvars ∧ listVarBound c.body ≤ c.nvars := by
  unfold parseRuleText at h
  split at h
  · simp at h
  · split at h
    · simp at h
    · split at h
      · simp at h
      · rename_i head rest st hp
        split at h
        · simp at h
        · split at h
          · rename_i rest2
            split at h
            · simp at h
            · rename_i body rest3 st3 hc
              split at h
              · simp at h
              · simp at h
                have hb1 := parseTerm_bound _ _ _ _ _ hp (by intro p hp2; simp at hp2)
                have hb2 := parseConjAux_bound _ _ _ _ _ _ hc hb1.1
                subst h
                exact ⟨Nat.le_trans hb1.2.2 hb2.2.1, hb2.2.2⟩
          · simp at h
          · simp at h

theorem foldr_map_rel {α β γ : Type} (f : α → List β × Bool) (g : α → List γ × Bool)
    (h : γ → β) (H : ∀ a, ((g a).1.map h = (f a).1) ∧ ((g a).2 = (f a).2)) :
    ∀ l : List α,
      (((l.map g).foldr (fun r acc => (r.1 ++ acc.1, r.2 || acc.2)) ([], false)).1.map h =
        ((l.map f).foldr (fun r acc => (r.1 ++ acc.1, r.2 || acc.2)) ([], false)).1) ∧
      (((l.map g).foldr (fun r acc => (r.1 ++ acc.1, r.2 || acc.2)) ([], false)).2 =
        ((l.map f).foldr (fun r acc => (r.1 ++ acc.1, r.2 || acc.2)) ([], false)).2) := by
  intro l
  induction l with
  | nil => simp
  | cons a l ih =>
    simp only [List.map_cons, List.foldr_cons]
    constructor
    · simp [List.map_append, (H a).1, ih.1]
    · simp [(H a).2, ih.2]

/-- The proof-building executor computes the same ordered solutions and the
same budget flag as the plain executor. -/
theorem solveP_agrees (ufuel : Nat) (kb : KnowledgeBase) :
    ∀ fuel ctr goals s,
      ((solveP ufuel kb fuel ctr goals s).1.map Prod.fst =
        (solve ufuel kb fuel ctr goals s).1) ∧
      ((solveP ufuel kb fuel ctr goals s).2 = (solve ufuel kb fuel ctr goals s).2) := by
  intro fuel
  induction fuel with
  | zero => intro ctr goals s; simp [solve, solveP]
  | succ n ih =>
    intro ctr goals s
    cases goals with
    | nil => simp [solve, solveP]
    | cons g rest =>
      show ((solveP ufuel kb (n+1) ctr (g :: rest) s).1.map Prod.fst = _) ∧ _
      unfold solve solveP
      cases hfa : functorArity (walk s g) with
      | none => simp [hfa]
      | some fa =>
        simp only [hfa]
        apply foldr_map_rel
        intro c
        cases hu : unify ufuel g (renameTerm ctr c.head) s with
        | none => simp
        | some s' =>
          simp only
          constructor
          · rw [List.map_map]
            have : (Prod.fst ∘ fun (q : Subst × List ProofNode) =>
                (q.1, ProofNode.applied g (renameClause ctr c) (q.2.take c.body.length) ::
                  q.2.drop c.body.length)) = Prod.fst := rfl
            rw [this]
            exact (ih (ctr + c.nvars) (renameList ctr c.body ++ rest) s').1
          · exact (ih (ctr + c.nvars) (renameList ctr c.body ++ rest) s').2

/-- Every reported Solution binds exactly the query's named variables, in
first-occurrence order. -/
theorem query_keys (kb : KnowledgeBase) (text : String) (goals : List Term)
    (qvars : List (String × Nat)) (nv : Nat) (sols : List Solution)
    (hp : parseQueryText text = Except.ok (goals, qvars, nv))
    (hq : query kb text = Except.ok sols) :
    ∀ sol ∈ sols, sol.map Prod.fst = qvars.map Prod.fst := by
  intro sol hsol
  unfold query queryWithBudget at hq
  rw [hp] at hq
  simp [Except.map] at hq
  subst hq
  simp at hsol
  obtain ⟨s, _, rfl⟩ := hsol
  simp [mkSolution]

/-! Claim theorems. -/

/-- C1: with the facts `human(socrates).` and `human(plato).` added in that
order and the rule `mortal(X) :- human(X).`, `query "mortal(X)"` yields
exactly two solutions, X=socrates followed by X=plato; candidate clauses
are a filter of the insertion-ordered store (first-declared, first-tried),
and inserting the two facts in the opposite order yields the two solutions
in the opposite order. -/
theorem mortal_query_yields_two_solutions_in_insertion_order :
    query kbMortal "mortal(X)" =
      Except.ok [[("X", Term.atom "socrates")], [("X", Term.atom "plato")]] ∧
    query kbMortalRev "mortal(X)" =
      Except.ok [[("X", Term.atom "plato")], [("X", Term.atom "socrates")]] ∧
    ∀ (kb : KnowledgeBase) (fa : String × Nat), List.Sublist (candidates kb fa) kb :=
  ⟨rfl, rfl, fun kb _ => List.filter_sublist kb⟩

/-- C2: on the teaching-chain store,
`query "teaching_chain(socrates, aristotle)"` succeeds with exactly one
(empty-binding) solution; `query "teaching_chain(aristotle, socrates)"`
terminates with zero solutions at every budget of at least two and without
exhausting it; a branch whose budget reaches zero is aborted with the
budget flag set, distinct from ordinary failure; and on a store whose first
candidate for `p` descends forever while its second is a fact, the looping
branch exhausts the budget while the sibling branch still yields its
solutions. -/
theorem teaching_chain_succeeds_and_terminates_within_budget :
    query kbTeach "teaching_chain(socrates, aristotle)" = Except.ok [[]] ∧
    (∀ u b : Nat,
      queryWithBudget kbTeach (u + 2) (b + 2) "teaching_chain(aristotle, socrates)" =
        Except.ok ([], false)) ∧
    (∀ (ufuel : Nat) (kb : KnowledgeBase) (ctr : Nat) (goals : List Term) (s : Subst),
      solve ufuel kb 0 ctr goals s = ([], true)) ∧
    queryWithBudget kbLoop defaultUFuel 8 "p" =
      Except.ok ([[], [], [], [], [], [], []], true) :=
  ⟨rfl, fun _ _ => rfl, fun _ _ _ _ _ => rfl, rfl⟩

/-- C3: after `add_fact "human(socrates)."` on an empty store,
`query "human(socrates)"` yields exactly one solution with an empty binding
map and `query "human(plato)"` yields zero solutions; in general every
solution of a variable-free query has an empty binding map. -/
theorem ground_query_true_one_empty_solution_false_none :
    query kbHuman "human(socrates)" = Except.ok [[]] ∧
    query kbHuman "human(plato)" = Except.ok [] ∧
    (∀ (kb : KnowledgeBase) (text : String) (goals : List Term) (nv : Nat)
       (sols : List Solution),
      parseQueryText text = Except.ok (goals, [], nv) →
      query kb text = Except.ok sols →
      ∀ sol ∈ sols, sol = []) := by
  refine ⟨rfl, rfl, ?_⟩
  intro kb text goals nv sols hp hq sol hsol
  have := query_keys kb text goals [] nv sols hp hq sol hsol
  simpa using this

/-- C3 witness: the general empty-binding property applied to the concrete
store and query. -/
theorem ground_query_true_one_empty_solution_false_none_witness :
    ([] : Solution) = [] :=
  ground_query_true_one_empty_solution_false_none.2.2 kbHuman "human(socrates)"
    [Term.compound "human" [Term.atom "socrates"]] 0 [[]] rfl rfl [] (by simp)

/-- C4: `add_fact` and `add_rule` report a ParseError and leave the
KnowledgeBase unchanged exactly when the text is malformed, and otherwise
append exactly the parsed clause; an unterminated clause, unbalanced
compound-term parentheses, a variable-shaped head and an empty head are all
reported as ParseErrors carrying position and reason. -/
theorem add_fact_add_rule_parse_error_leaves_kb_unchanged :
    (∀ (kb : KnowledgeBase) (text : String) (e : ParseError),
      (addFact kb text).2 = some e → (addFact kb text).1 = kb) ∧
    (∀ (kb : KnowledgeBase) (text : String) (e : ParseError),
      (addRule kb text).2 = some e → (addRule kb text).1 = kb) ∧
    (∀ (kb : KnowledgeBase) (text : String),
      (addFact kb text).2 = none →
      ∃ c, parseFactText text = Except.ok c ∧ (addFact kb text).1 = kb ++ [c]) ∧
    (∀ (kb : KnowledgeBase) (text : String),
      (addRule kb text).2 = none →
      ∃ c, parseRuleText text = Except.ok c ∧ (addRule kb text).1 = kb ++ [c]) ∧
    (addFact [] "human(socrates)").2 =
      some ⟨15, "unterminated clause: missing terminating period"⟩ ∧
    (addRule [] "mortal(X) :- human(X)").2 =
      some ⟨21, "unterminated clause: missing terminating period"⟩ ∧
    (addFact [] "human(socrates.").2 =
      some ⟨14, "unbalanced compound term: expected a comma or a closing parenthesis"⟩ ∧
    (addFact [] "X.").2 = some ⟨0, "variable-shaped head"⟩ ∧
    (addRule [] "X :- human(X).").2 = some ⟨0, "variable-shaped head"⟩ ∧
    (addFact [] ".").2 = some ⟨0, "empty head"⟩ ∧
    (addRule [] ":- human(X).").2 = some ⟨0, "empty head"⟩ := by
  refine ⟨?_, ?_, ?_, ?_, rfl, rfl, rfl, rfl, rfl, rfl, rfl⟩
  · intro kb text e h
    unfold addFact at h ⊢
    cases hp : parseFactText text with
    | ok c => rw [hp] at h; simp at h
    | error e2 => rfl
  · intro kb text e h
    unfold addRule at h ⊢
    cases hp : parseRuleText text with
    | ok c => rw [hp] at h; simp at h
    | error e2 => rfl
  · intro kb text h
    unfold addFact at h ⊢
    cases hp : parseFactText text with
    | ok c => exact ⟨c, rfl, rfl⟩
    | error e2 => rw [hp] at h; simp at h
  · intro kb text h
    unfold addRule at h ⊢
    cases hp : parseRuleText text with
    | ok c => exact ⟨c, rfl, rfl⟩
    | error e2 => rw [hp] at h; simp at h

/-- C4 witness: atomicity applied to a concrete malformed fact. -/
theorem add_fact_add_rule_parse_error_leaves_kb_unchanged_witness :
    (addFact [] "X.").1 = ([] : KnowledgeBase) :=
  add_fact_add_rule_parse_error_leaves_kb_unchanged.1 [] "X."
    ⟨0, "variable-shaped head"⟩ rfl

/-- C5: unification of two compound terms succeeds iff they have the same
functor and the same arity and all corresponding argument pairs unify left
to right, each from the substitution the previous pair produced; in
particular `unify f(a,b) f(X,Y) {}` yields exactly the substitution with
X bound to a and Y bound to b. -/
theorem unify_compound_same_functor_arity_threaded_args :
    (∀ (fuel : Nat) (f g : String) (as bs : List Term) (s : Subst),
      unify (fuel + 1) (Term.compound f as) (Term.compound g bs) s =
        if f = g ∧ as.length = bs.length then unifyArgs fuel as bs s else none) ∧
    (∀ (fuel : Nat) (f g : String) (as bs : List Term) (s : Subst),
      (unify (fuel + 1) (Term.compound f as) (Term.compound g bs) s).isSome ↔
        f = g ∧ as.length = bs.length ∧ (unifyArgs fuel as bs s).isSome) ∧
    (∀ (fuel : Nat) (x y : Term) (xs ys : List Term) (s : Subst),
      unifyArgs fuel (x :: xs) (y :: ys) s =
        match unify fuel x y s with
        | some s2 => unifyArgs fuel xs ys s2
        | none => none) ∧
    (∀ (fuel : Nat) (s : Subst), unifyArgs fuel [] [] s = some s) ∧
    unify 3 (Term.compound "f" [Term.atom "a", Term.atom "b"])
        (Term.compound "f" [Term.var 0, Term.var 1]) [] =
      some [(1, Term.atom "b"), (0, Term.atom "a")] ∧
    ([(1, Term.atom "b"), (0, Term.atom "a")] : Subst).lookup 0 = some (Term.atom "a") ∧
    ([(1, Term.atom "b"), (0, Term.atom "a")] : Subst).lookup 1 = some (Term.atom "b") := by
  refine ⟨fun fuel f g as bs s => rfl, ?_, unifyArgs_cons, fun fuel s => rfl, rfl, rfl, rfl⟩
  intro fuel f g as bs s
  rw [unify_compound_eq]
  by_cases h : f = g ∧ as.length = bs.length
  · simp [h]
  · simp only [if_neg h, Option.isSome_none]
    constructor
    · intro hfalse; simp at hfalse
    · rintro ⟨h1, h2, -⟩; exact absurd ⟨h1, h2⟩ h

/-- C6: every variable of a candidate-clause copy lies in the fresh window
at or above the renaming offset, so copies taken at disjoint offsets share
no variables (separate invocations of one rule are independent); clauses
accepted by `add_fact`/`add_rule` have their variables normalized below
their own variable count, so identically-named variables of two different
clauses are unrelated; and the executor renames each candidate with the
current fresh offset before every unification attempt. -/
theorem clause_variables_renamed_fresh_and_clause_local :
    (∀ (off : Nat) (t : Term), ∀ v ∈ termVars (renameTerm off t),
      off ≤ v ∧ v < off + varBound t) ∧
    (∀ (off1 off2 : Nat) (t u : Term), off1 + varBound t ≤ off2 →
      ∀ v ∈ termVars (renameTerm off1 t), v ∉ termVars (renameTerm off2 u)) ∧
    (∀ (text : String) (c : Clause), parseFactText text = Except.ok c →
      varBound c.head ≤ c.nvars ∧ listVarBound c.body ≤ c.nvars) ∧
    (∀ (text : String) (c : Clause), parseRuleText text = Except.ok c →
      varBound c.head ≤ c.nvars ∧ listVarBound c.body ≤ c.nvars) ∧
    (∀ (ufuel : Nat) (kb : KnowledgeBase) (fuel ctr : Nat) (g : Term)
       (rest : List Term) (s : Subst),
      solve ufuel kb (fuel + 1) ctr (g :: rest) s =
        match functorArity (walk s g) with
        | none => ([], false)
        | some fa =>
          ((candidates kb fa).map (fun c =>
            match unify ufuel g (renameTerm ctr c.head) s with
            | none => ([], false)
            | some s2 =>
              solve ufuel kb fuel (ctr + c.nvars) (renameList ctr c.body ++ rest) s2)).foldr
            (fun r acc => (r.1 ++ acc.1, r.2 || acc.2)) ([], false)) ∧
    parseRuleText "p(X) :- q(X)." =
      Except.ok ⟨Term.compound "p" [Term.var 0], [Term.compound "q" [Term.var 0]], 1⟩ ∧
    parseRuleText "r(X) :- s(X)." =
      Except.ok ⟨Term.compound "r" [Term.var 0], [Term.compound "s" [Term.var 0]], 1⟩ :=
  ⟨renameTerm_fresh, renameTerm_disjoint, parseFactText_wf, parseRuleText_wf,
   fun _ _ _ _ _ _ _ => rfl, rfl, rfl⟩

/-- C6 witness: copy disjointness and clause normalization applied at
concrete inputs. -/
theorem clause_variables_renamed_fresh_and_clause_local_witness :
    ((0 : Nat) ∉ termVars (renameTerm 1 (Term.var 0))) ∧
    (varBound (Term.compound "p" [Term.var 0]) ≤ 1 ∧
      listVarBound [Term.compound "q" [Term.var 0]] ≤ 1) :=
  ⟨clause_variables_renamed_fresh_and_clause_local.2.1 0 1 (Term.var 0) (Term.var 0)
      (by decide) 0 (by simp [renameTerm, termVars]),
   clause_variables_renamed_fresh_and_clause_local.2.2.2.1 "p(X) :- q(X)."
      ⟨Term.compound "p" [Term.var 0], [Term.compound "q" [Term.var 0]], 1⟩ rfl⟩

/-- C7: for a query with at least one solution, `explain` renders the
derivation forest of the first solution and that rendering contains an
entry naming every clause applied along it; for a query with no solutions,
`explain` renders a failure leaf naming a failing goal, and the two failure
kinds — unmatched versus subgoal failed — render distinct entries. -/
theorem explain_names_applied_clauses_and_failing_goals :
    (∀ (kb : KnowledgeBase) (text : String) (sol : Solution) (sols : List Solution),
      query kb text = Except.ok (sol :: sols) →
      ∃ goals qvars nv s forest restP,
        parseQueryText text = Except.ok (goals, qvars, nv) ∧
        (solveP defaultUFuel kb defaultBudget nv goals []).1 = (s, forest) :: restP ∧
        explainQuery kb text = Except.ok (renderText (renderForest 0 forest)) ∧
        ∀ e ∈ appliedEntriesForest 0 forest, e ∈ renderForest 0 forest) ∧
    (∀ (kb : KnowledgeBase) (text : String),
      query kb text = Except.ok [] →
      ∃ g k, explainQuery kb text = Except.ok (renderText [failEntry 0 g k])) ∧
    (∀ (d : Nat) (g : Term),
      failEntry d g FailKind.unmatched ≠ failEntry d g FailKind.subgoalFailed) := by
  refine ⟨?_, ?_, ?_⟩
  · intro kb text sol sols hq
    unfold query queryWithBudget at hq
    cases hp : parseQueryText text with
    | error e => rw [hp] at hq; simp [Except.map] at hq
    | ok r =>
      obtain ⟨goals, qvars, nv⟩ := r
      rw [hp] at hq
      simp [Except.map] at hq
      have hbr := (solveP_agrees defaultUFuel kb defaultBudget nv goals []).1
      cases hsp : (solveP defaultUFuel kb defaultBudget nv goals []).1 with
      | nil =>
        rw [hsp] at hbr
        simp at hbr
        rw [hbr] at hq
        simp at hq
      | cons p restP =>
        obtain ⟨s, forest⟩ := p
        refine ⟨goals, qvars, nv, s, forest, restP, rfl, hsp, ?_, ?_⟩
        · unfold explainQuery explainEntries
          rw [hp]
          dsimp only
          rw [hsp]
          simp [Except.map]
        · exact appliedEntriesForest_sub_render forest 0
  · intro kb text hq
    unfold query queryWithBudget at hq
    cases hp : parseQueryText text with
    | error e => rw [hp] at hq; simp [Except.map] at hq
    | ok r =>
      obtain ⟨goals, qvars, nv⟩ := r
      rw [hp] at hq
      simp [Except.map] at hq
      have hsolve : (solve defaultUFuel kb defaultBudget nv goals []).1 = [] := by
        cases h : (solve defaultUFuel kb defaultBudget nv goals []).1 with
        | nil => rfl
        | cons a b => rw [h] at hq; simp at hq
      have hbr := (solveP_agrees defaultUFuel kb defaultBudget nv goals []).1
      have hsp : (solveP defaultUFuel kb defaultBudget nv goals []).1 = [] := by
        cases h : (solveP defaultUFuel kb defaultBudget nv goals []).1 with
        | nil => rfl
        | cons p r2 =>
          rw [h, hsolve] at hbr
          simp at hbr
      obtain ⟨g, k, hfb⟩ := failBranch_failedLeaf defaultUFuel kb defaultBudget goals nv []
      refine ⟨g, k, ?_⟩
      unfold explainQuery explainEntries
      rw [hp]
      dsimp only
      rw [hsp, hfb]
      simp [Except.map, renderNode]
  · intro d g h
    simp [failEntry] at h
    have h2 := congrArg String.data h
    simp only [String.data_append] at h2
    exact absurd (List.append_cancel_left h2) (by decide)

/-- C7 witness: the success side applied to a provable query and the
failure side applied to an unprovable one on the mortality store. -/
theorem explain_names_applied_clauses_and_failing_goals_witness :
    (∃ goals qvars nv s forest restP,
      parseQueryText "mortal(socrates)" = Except.ok (goals, qvars, nv) ∧
      (solveP defaultUFuel kbMortal defaultBudget nv goals []).1 = (s, forest) :: restP ∧
      explainQuery kbMortal "mortal(socrates)" =
        Except.ok (renderText (renderForest 0 forest)) ∧
      ∀ e ∈ appliedEntriesForest 0 forest, e ∈ renderForest 0 forest) ∧
    (∃ g k, explainQuery kbMortal "mortal(zeus)" =
      Except.ok (renderText [failEntry 0 g k])) :=
  ⟨explain_names_applied_clauses_and_failing_goals.1 kbMortal "mortal(socrates)" [] [] rfl,
   explain_names_applied_clauses_and_failing_goals.2.1 kbMortal "mortal(zeus)" rfl⟩

/-- C8: for a fixed KnowledgeBase and a fixed query text, two runs of the
query produce identical, identically-ordered solution sequences — in this
embedding the search is a pure function of the store and the goal. -/
theorem query_is_deterministic :
    ∀ (kb : KnowledgeBase) (text : String) (r1 r2 : Except ParseError (List Solution)),
      query kb text = r1 → query kb text = r2 → r1 = r2 :=
  fun _ _ _ _ h1 h2 => h1.symm.trans h2

/-- C8 witness: determinism applied to the mortality query, pinning its
computed value. -/
theorem query_is_deterministic_witness :
    query kbMortal "mortal(X)" =
      Except.ok [[("X", Term.atom "socrates")], [("X", Term.atom "plato")]] :=
  query_is_deterministic kbMortal "mortal(X)" (query kbMortal "mortal(X)")
    (Except.ok [[("X", Term.atom "socrates")], [("X", Term.atom "plato")]]) rfl rfl

/-- C9: in an operation trace, the answer recorded for a query is a value
of the store at that point only — whatever mutations follow, the already
materialized sequence is unchanged; concretely, adding `human(zeno).` after
a materialized `mortal(X)` query leaves the first answer at two solutions
while a fresh run of the same query sees three. -/
theorem materialized_solutions_unaffected_by_later_mutation :
    (∀ (kb : KnowledgeBase) (t : String) (ops : List Op),
      runOps kb (Op.ask t :: ops) = Out.answered (query kb t) :: runOps kb ops) ∧
    runOps kbMortal [Op.ask "mortal(X)", Op.fact "human(zeno).", Op.ask "mortal(X)"] =
      [Out.answered (Except.ok [[("X", Term.atom "socrates")], [("X", Term.atom "plato")]]),
       Out.mutated none,
       Out.answered (Except.ok [[("X", Term.atom "socrates")], [("X", Term.atom "plato")],
         [("X", Term.atom "zeno")]])] :=
  ⟨fun _ _ _ => rfl, rfl⟩

/-- C10: `query` returns its solutions as a fully materialized list value;
every solution of a successful query binds exactly the query's variable
names (indexable per variable), the list is empty exactly for a false
query, and the concrete mortality query supports name lookup per
solution. -/
theorem query_returns_materialized_name_indexed_solutions :
    (∀ (kb : KnowledgeBase) (text : String) (goals : List Term)
       (qvars : List (String × Nat)) (nv : Nat) (sols : List Solution),
      parseQueryText text = Except.ok (goals, qvars, nv) →
      query kb text = Except.ok sols →
      ∀ sol ∈ sols, sol.map Prod.fst = qvars.map Prod.fst) ∧
    query kbMortal "mortal(X)" =
      Except.ok [[("X", Term.atom "socrates")], [("X", Term.atom "plato")]] ∧
    ([("X", Term.atom "socrates")] : Solution).lookup "X" = some (Term.atom "socrates") ∧
    ([("X", Term.atom "plato")] : Solution).lookup "X" = some (Term.atom "plato") ∧
    query kbMortal "human(zeno)" = Except.ok [] :=
  ⟨query_keys, rfl, rfl, rfl, rfl⟩

/-- C10 witness: the name-indexing property applied to the first solution
of the concrete mortality query. -/
theorem query_returns_materialized_name_indexed_solutions_witness :
    ([("X", Term.atom "socrates")] : Solution).map Prod.fst =
      ([("X", 0)] : List (String × Nat)).map Prod.fst :=
  query_returns_materialized_name_indexed_solutions.1 kbMortal "mortal(X)"
    [Term.compound "mortal" [Term.var 0]] [("X", 0)] 1
    [[("X", Term.atom "socrates")], [("X", Term.atom "plato")]] rfl rfl
    [("X", Term.atom "socrates")] (by simp)

end Brain
